/-
A verification development for the fsm Go library (general-purpose
finite-state-machine execution engine).

The embedding mirrors `src/fsm.go`:
  - `Input` is a Go `int` (modelled as `Int`); `NO_INPUT = -1` is the
    chain-terminating sentinel.
  - `Action` is `func(context.Context) (context.Context, Input)`; the
    execution context is an opaque type parameter `Ctx`.
  - `Outcome`, `State` mirror the structs; Go maps become functions into
    `Option` (absent key = `none`), which preserves the lookup semantics.
  - `Machine` mirrors `FSM` (its `states` table and `current` cursor; the
    mutex and the logger/name tables are omitted: the lock only serialises
    calls and the logger only emits trace text, neither affects the
    result values or the cursor).
  - `Define` mirrors the constructor loop; the `states[0].Index` access
    on an empty argument list panics in Go, modelled by an outer `Option`
    (`none` = panic).
  - `Spin` mirrors the chained-action loop; the Go loop has no bound, so
    the embedding is fuel-indexed: `none` means the fuel ran out before
    the loop finished, `some` is the actual returned (machine, context,
    error) triple.
-/
import Mathlib

namespace Fsm

/-- Go `type Input int` (src/fsm.go line 19). -/
abbrev Input := Int

/-- Go `NO_INPUT Input = -1` (src/fsm.go line 15). -/
def NO_INPUT : Input := -1

/-- Go `type Action func(context.Context) (context.Context, Input)` (line 23). -/
def Action (Ctx : Type) := Ctx → Ctx × Input

/-- Go `NO_ACTION` (line 26): identity on the context, returns the sentinel. -/
def NO_ACTION (Ctx : Type) : Action Ctx := fun ctx => (ctx, NO_INPUT)

/-- Go `type Outcome struct { State int; Action Action }` (lines 30-33). -/
structure Outcome (Ctx : Type) where
  state : Int
  action : Action Ctx

/-- Go `type State struct { Index int; Outcomes map[Input]Outcome }` (lines 37-40). -/
structure State (Ctx : Type) where
  index : Int
  outcomes : Input → Option (Outcome Ctx)

/-- Go `type FSM struct { states map[int]State; current int; ... }` (lines 43-50).
The mutex and logging fields are omitted (no effect on results). -/
structure Machine (Ctx : Type) where
  states : Int → Option (State Ctx)
  current : Int

/-- The three error types of the library (lines 53-75):
`InvalidInputError{StateIndex, Input}`, `ImpossibleStateError int`,
`ClashingStateError int`. -/
inductive FSMError where
  | clashingState (index : Int)
  | impossibleState (index : Int)
  | invalidInput (stateIndex : Int) (input : Input)
deriving DecidableEq

variable {Ctx : Type}

/-- Go `stateMap[s.Index] = s` (line 85): map insertion. -/
def insertState (tbl : Int → Option (State Ctx)) (s : State Ctx) :
    Int → Option (State Ctx) :=
  fun k => if k = s.index then some s else tbl k

/-- The `for _, s := range states` loop of `Define` (lines 81-86): insert each
state in input order, failing with `ClashingStateError(s.Index)` as soon as a
state's `Index` is already present. -/
def buildStateMap (tbl : Int → Option (State Ctx)) :
    List (State Ctx) → Except FSMError (Int → Option (State Ctx))
  | [] => .ok tbl
  | s :: rest =>
    match tbl s.index with
    | some _ => .error (.clashingState s.index)
    | none => buildStateMap (insertState tbl s) rest

/-- Go `Define(states ...State) (*FSM, error)` (lines 79-97).  The outer
`Option` models the Go panic: on an empty list the loop succeeds vacuously and
then `states[0].Index` (line 94) is an out-of-bounds access, so the result is
`none`; otherwise `some` of the Go (machine | error) result. -/
def Define (states : List (State Ctx)) : Option (Except FSMError (Machine Ctx)) :=
  match buildStateMap (fun _ => none) states with
  | .error e => some (.error e)
  | .ok tbl => states.head?.map fun s0 => .ok ⟨tbl, s0.index⟩

/-- Go `Spin(ctx context.Context, in Input) (context.Context, error)`
(lines 101-129), fuel-indexed: the Go `for i := in; i != NO_INPUT;` loop has no
bound, so `fuel` bounds the number of iterations and `none` means the bound was
hit first.  Each iteration looks up the current state (absent →
`ImpossibleStateError`), looks up the outcome for the pending input (absent →
`InvalidInputError`), then runs the action and moves the cursor to the
outcome's target state.  Error returns carry the context and cursor as they
stood at the moment of failure. -/
def Spin : Nat → Machine Ctx → Ctx → Input → Option (Machine Ctx × Ctx × Option FSMError)
  | 0, m, ctx, i => if i = NO_INPUT then some (m, ctx, none) else none
  | fuel + 1, m, ctx, i =>
    if i = NO_INPUT then some (m, ctx, none)
    else
      match m.states m.current with
      | none => some (m, ctx, some (.impossibleState m.current))
      | some s =>
        match s.outcomes i with
        | none => some (m, ctx, some (.invalidInput m.current i))
        | some o => Spin fuel ⟨m.states, o.state⟩ (o.action ctx).1 (o.action ctx).2

/-- Zero loop iterations happen when the input is already the sentinel, at any
fuel: the `for` condition (line 107) is checked before the first iteration. -/
theorem spin_sentinel (fuel : Nat) (m : Machine Ctx) (ctx : Ctx) :
    Spin fuel m ctx NO_INPUT = some (m, ctx, none) := by
  cases fuel <;> simp [Spin]

/-- Unfolding equation for `Spin`: current state absent from the table
(lines 111-115). -/
theorem spin_step_impossible (fuel : Nat) (m : Machine Ctx) (ctx : Ctx)
    (i : Input) (hi : i ≠ NO_INPUT) (hs : m.states m.current = none) :
    Spin (fuel + 1) m ctx i = some (m, ctx, some (.impossibleState m.current)) := by
  simp only [Spin, if_neg hi, hs]

/-- Unfolding equation for `Spin`: no outcome for the pending input
(lines 117-121). -/
theorem spin_step_invalid (fuel : Nat) (m : Machine Ctx) (ctx : Ctx)
    (i : Input) (s : State Ctx) (hi : i ≠ NO_INPUT)
    (hs : m.states m.current = some s) (ho : s.outcomes i = none) :
    Spin (fuel + 1) m ctx i = some (m, ctx, some (.invalidInput m.current i)) := by
  simp only [Spin, if_neg hi, hs, ho]

/-- Unfolding equation for `Spin`: run the outcome's action and move the
cursor to its target state (lines 123-124). -/
theorem spin_step_action (fuel : Nat) (m : Machine Ctx) (ctx : Ctx)
    (i : Input) (s : State Ctx) (o : Outcome Ctx) (hi : i ≠ NO_INPUT)
    (hs : m.states m.current = some s) (ho : s.outcomes i = some o) :
    Spin (fuel + 1) m ctx i =
      Spin fuel ⟨m.states, o.state⟩ (o.action ctx).1 (o.action ctx).2 := by
  simp only [Spin, if_neg hi, hs, ho]

/-- Fuel monotonicity: once the loop finishes within the fuel bound, more fuel
does not change the result. -/
theorem spin_mono (fuel k : Nat) (m : Machine Ctx) (ctx : Ctx) (i : Input)
    (r : Machine Ctx × Ctx × Option FSMError) (h : Spin fuel m ctx i = some r) :
    Spin (fuel + k) m ctx i = some r := by
  induction fuel generalizing m ctx i with
  | zero =>
    by_cases hi : i = NO_INPUT
    · subst hi
      rw [spin_sentinel] at h
      rw [spin_sentinel]
      exact h
    · simp [Spin, hi] at h
  | succ fuel ih =>
    by_cases hi : i = NO_INPUT
    · subst hi
      rw [spin_sentinel] at h
      rw [spin_sentinel]
      exact h
    · have hk : fuel + 1 + k = (fuel + k) + 1 := by omega
      rw [hk]
      cases hs : m.states m.current with
      | none =>
        rw [spin_step_impossible fuel m ctx i hi hs] at h
        rw [spin_step_impossible (fuel + k) m ctx i hi hs]
        exact h
      | some s =>
        cases ho : s.outcomes i with
        | none =>
          rw [spin_step_invalid fuel m ctx i s hi hs ho] at h
          rw [spin_step_invalid (fuel + k) m ctx i s hi hs ho]
          exact h
        | some o =>
          rw [spin_step_action fuel m ctx i s o hi hs ho] at h
          rw [spin_step_action (fuel + k) m ctx i s o hi hs ho]
          exact ih _ _ _ h

/-- The reflexive-transitive execution relation of the `Spin` loop body over a
fixed state table: `RunsTo tbl ctx cur i ctx' cur' i'` holds when, starting
from context `ctx`, cursor `cur` and pending input `i`, finitely many loop
iterations (look up the current state, look up the pending input's outcome,
run its action, move the cursor to the outcome's target) lead to context
`ctx'`, cursor `cur'` and pending input `i'`. -/
inductive RunsTo (tbl : Int → Option (State Ctx)) :
    Ctx → Int → Input → Ctx → Int → Input → Prop where
  | refl (ctx : Ctx) (cur : Int) (i : Input) : RunsTo tbl ctx cur i ctx cur i
  | step {ctx : Ctx} {cur : Int} {i : Input} {s : State Ctx} {o : Outcome Ctx}
      {ctx2 : Ctx} {i2 : Input} {ctx3 : Ctx} {cur3 : Int} {i3 : Input}
      (hi : i ≠ NO_INPUT) (hs : tbl cur = some s) (ho : s.outcomes i = some o)
      (ha : o.action ctx = (ctx2, i2))
      (hrest : RunsTo tbl ctx2 o.state i2 ctx3 cur3 i3) :
      RunsTo tbl ctx cur i ctx3 cur3 i3

/-- A finished chain (pending input has become the sentinel) is executed in
full by `Spin`, given enough fuel, ending exactly at the chain's final
context and cursor with no error. -/
theorem runsTo_spin {tbl : Int → Option (State Ctx)} {ctx : Ctx} {cur : Int}
    {i : Input} {ctx' : Ctx} {cur' : Int} {i' : Input}
    (h : RunsTo tbl ctx cur i ctx' cur' i') (hfin : i' = NO_INPUT) :
    ∃ fuel, Spin fuel ⟨tbl, cur⟩ ctx i = some (⟨tbl, cur'⟩, ctx', none) := by
  induction h with
  | refl ctx cur i =>
    subst hfin
    exact ⟨0, spin_sentinel 0 _ _⟩
  | step hi hs ho ha hrest ih =>
    obtain ⟨fuel, hf⟩ := ih hfin
    refine ⟨fuel + 1, ?_⟩
    rw [spin_step_action fuel _ _ _ _ _ hi hs ho, ha]
    exact hf

/-- C1: for every state table and initial input such that repeatedly following
the outcome chain (looking up the current state, looking up the current
input's outcome, running its action to get the next input, moving to the
outcome's target state) reaches the `NO_INPUT` sentinel without error, `Spin`
terminates (some fuel makes the loop finish) and, on return, the machine's
cursor equals the target state of the last outcome whose action produced the
sentinel — which is exactly the final cursor of the `RunsTo` chain. -/
theorem spin_terminates_on_chain {tbl : Int → Option (State Ctx)} {ctx : Ctx}
    {cur : Int} {i : Input} {ctx' : Ctx} {cur' : Int}
    (h : RunsTo tbl ctx cur i ctx' cur' NO_INPUT) :
    ∃ fuel, Spin fuel ⟨tbl, cur⟩ ctx i = some (⟨tbl, cur'⟩, ctx', none) :=
  runsTo_spin h rfl

/-- One-state table used by concrete witnesses: state 1, where input 0 moves
to state 2 running an action that increments the context and ends the chain. -/
def wIncState : State Nat :=
  ⟨1, fun i => if i = 0 then some ⟨2, fun c => (c + 1, NO_INPUT)⟩ else none⟩

/-- Witness table for C1. -/
def wIncTable : Int → Option (State Nat) :=
  fun k => if k = 1 then some wIncState else none

/-- C1 witness: a concrete one-step chain from state 1 with input 0. -/
theorem spin_terminates_on_chain_witness :
    ∃ fuel, Spin fuel ⟨wIncTable, 1⟩ (5 : Nat) 0 = some (⟨wIncTable, 2⟩, 6, none) :=
  spin_terminates_on_chain
    (RunsTo.step (by decide) rfl rfl rfl (RunsTo.refl 6 2 NO_INPUT))

/-- C2: for every `Spin` call that returns an error mid-chain, the cursor is
left at whatever value it held at the moment of failure (the `RunsTo` prefix
of already-applied transitions, which is not rolled back), and the returned
context is exactly the context produced by the actions that ran before the
failure (the input context if zero actions ran, via the `refl` chain); the
error is the impossible-state or invalid-input detected at that point. -/
theorem spin_error_partial_progress (fuel : Nat) (m m' : Machine Ctx)
    (ctx ctx' : Ctx) (i : Input) (err : FSMError)
    (h : Spin fuel m ctx i = some (m', ctx', some err)) :
    m'.states = m.states ∧
    ∃ i', RunsTo m.states ctx m.current i ctx' m'.current i' ∧ i' ≠ NO_INPUT ∧
      ((m.states m'.current = none ∧ err = .impossibleState m'.current) ∨
       (∃ s, m.states m'.current = some s ∧ s.outcomes i' = none ∧
         err = .invalidInput m'.current i')) := by
  induction fuel generalizing m ctx i with
  | zero =>
    by_cases hi : i = NO_INPUT
    · subst hi; rw [spin_sentinel] at h; simp at h
    · simp [Spin, hi] at h
  | succ fuel ih =>
    by_cases hi : i = NO_INPUT
    · subst hi; rw [spin_sentinel] at h; simp at h
    · cases hs : m.states m.current with
      | none =>
        rw [spin_step_impossible fuel m ctx i hi hs] at h
        simp only [Option.some.injEq, Prod.mk.injEq] at h
        obtain ⟨hm, hctx, herr⟩ := h
        subst hm; subst hctx; subst herr
        exact ⟨rfl, i, RunsTo.refl ctx m.current i, hi, Or.inl ⟨hs, rfl⟩⟩
      | some s =>
        cases ho : s.outcomes i with
        | none =>
          rw [spin_step_invalid fuel m ctx i s hi hs ho] at h
          simp only [Option.some.injEq, Prod.mk.injEq] at h
          obtain ⟨hm, hctx, herr⟩ := h
          subst hm; subst hctx; subst herr
          exact ⟨rfl, i, RunsTo.refl ctx m.current i, hi,
            Or.inr ⟨s, hs, ho, rfl⟩⟩
        | some o =>
          rw [spin_step_action fuel m ctx i s o hi hs ho] at h
          obtain ⟨hstates, i'', hrun, hne, hfail⟩ := ih _ _ _ h
          exact ⟨hstates, i'', RunsTo.step hi hs ho rfl hrun, hne, hfail⟩

/-- One-state table used by concrete witnesses: state 1 with an empty outcome
mapping. -/
def wEmptyState : State Nat := ⟨1, fun _ => none⟩

/-- Witness machine at state 1 whose only state accepts no inputs. -/
def wEmptyMachine : Machine Nat :=
  ⟨fun k => if k = 1 then some wEmptyState else none, 1⟩

/-- C2 witness: a concrete failing call (invalid input at the first
iteration, zero actions ran). -/
theorem spin_error_partial_progress_witness :
    wEmptyMachine.states = wEmptyMachine.states ∧
    ∃ i', RunsTo wEmptyMachine.states (0 : Nat) wEmptyMachine.current 5 0
        wEmptyMachine.current i' ∧ i' ≠ NO_INPUT ∧
      ((wEmptyMachine.states wEmptyMachine.current = none ∧
         FSMError.invalidInput 1 5 = .impossibleState wEmptyMachine.current) ∨
       (∃ s, wEmptyMachine.states wEmptyMachine.current = some s ∧
         s.outcomes i' = none ∧
         FSMError.invalidInput 1 5 = .invalidInput wEmptyMachine.current i')) :=
  spin_error_partial_progress 1 wEmptyMachine wEmptyMachine 0 0 5
    (FSMError.invalidInput 1 5) rfl

/-- C3: for every machine and every non-sentinel input absent from the
outcome mapping of the state current at the time of the call, `Spin` fails
with an invalid-input error carrying exactly the current state identifier and
that input, and returns the machine unchanged (cursor included). -/
theorem spin_invalid_input (fuel : Nat) (m : Machine Ctx) (ctx : Ctx)
    (i : Input) (s : State Ctx) (hi : i ≠ NO_INPUT)
    (hs : m.states m.current = some s) (ho : s.outcomes i = none) :
    Spin (fuel + 1) m ctx i = some (m, ctx, some (.invalidInput m.current i)) :=
  spin_step_invalid fuel m ctx i s hi hs ho

/-- C3 witness: input 5 has no outcome in state 1 of the witness machine. -/
theorem spin_invalid_input_witness :
    Spin 1 wEmptyMachine (0 : Nat) 5 =
      some (wEmptyMachine, 0, some (.invalidInput wEmptyMachine.current 5)) :=
  spin_invalid_input 0 wEmptyMachine 0 5 wEmptyState (by decide) rfl rfl

/-- C4: for every machine whose cursor is not a key of its state table,
`Spin` with any non-sentinel input fails with an impossible-state error
carrying the cursor value, and returns the machine unchanged. -/
theorem spin_impossible_state (fuel : Nat) (m : Machine Ctx) (ctx : Ctx)
    (i : Input) (hi : i ≠ NO_INPUT) (hs : m.states m.current = none) :
    Spin (fuel + 1) m ctx i = some (m, ctx, some (.impossibleState m.current)) :=
  spin_step_impossible fuel m ctx i hi hs

/-- Witness machine whose cursor (3) is absent from its one-state table. -/
def wStrayMachine : Machine Nat :=
  ⟨fun k => if k = 1 then some wEmptyState else none, 3⟩

/-- C4 witness: spinning the stray machine with input 0 fails with
impossible-state 3. -/
theorem spin_impossible_state_witness :
    Spin 1 wStrayMachine (0 : Nat) 0 =
      some (wStrayMachine, 0, some (.impossibleState wStrayMachine.current)) :=
  spin_impossible_state 0 wStrayMachine 0 0 (by decide) rfl

/-- C10: for every machine and every context, `Spin` called with the
`NO_INPUT` sentinel executes zero loop iterations (any fuel, including 0,
suffices) and returns the input context unchanged with no error, leaving the
machine — cursor and table — unchanged, even when the cursor is absent from
the table: no impossible-state check happens before the loop condition. -/
theorem spin_sentinel_noop (fuel : Nat) (m : Machine Ctx) (ctx : Ctx) :
    Spin fuel m ctx NO_INPUT = some (m, ctx, none) :=
  spin_sentinel fuel m ctx

/-- Inserting states whose indices avoid `k` does not change the table at `k`. -/
theorem foldl_insert_of_notmem (l : List (State Ctx))
    (tbl : Int → Option (State Ctx)) (k : Int) (hk : k ∉ l.map State.index) :
    List.foldl insertState tbl l k = tbl k := by
  induction l generalizing tbl with
  | nil => rfl
  | cons t rest ih =>
    simp only [List.map_cons, List.mem_cons] at hk
    push_neg at hk
    rw [List.foldl_cons, ih _ hk.2]
    simp [insertState, hk.1]

/-- With pairwise-distinct indices, the folded table maps each inserted
state's index to that state. -/
theorem foldl_insert_lookup (l : List (State Ctx)) :
    ∀ tbl : Int → Option (State Ctx), (l.map State.index).Nodup →
      ∀ s ∈ l, List.foldl insertState tbl l s.index = some s := by
  induction l with
  | nil => intro tbl _ s hs; cases hs
  | cons t rest ih =>
    intro tbl hnd s hs
    simp only [List.map_cons, List.nodup_cons] at hnd
    rw [List.foldl_cons]
    rcases List.mem_cons.mp hs with h | h
    · subst h
      rw [foldl_insert_of_notmem rest _ _ hnd.1]
      simp [insertState]
    · exact ih _ hnd.2 s h

/-- The `Define` loop succeeds on fresh, pairwise-distinct indices, producing
the left fold of insertions. -/
theorem buildStateMap_ok (l : List (State Ctx)) :
    ∀ tbl : Int → Option (State Ctx), (∀ s ∈ l, tbl s.index = none) →
      (l.map State.index).Nodup →
      buildStateMap tbl l = .ok (List.foldl insertState tbl l) := by
  induction l with
  | nil => intro tbl _ _; rfl
  | cons t rest ih =>
    intro tbl hfresh hnd
    simp only [List.map_cons, List.nodup_cons] at hnd
    have ht : tbl t.index = none := hfresh t (List.mem_cons_self t rest)
    rw [List.foldl_cons]
    simp only [buildStateMap, ht]
    refine ih _ (fun s hs => ?_) hnd.2
    have hne : s.index ≠ t.index := by
      intro he
      exact hnd.1 (he ▸ List.mem_map_of_mem State.index hs)
    simp only [insertState, if_neg hne]
    exact hfresh s (List.mem_cons_of_mem t hs)

/-- The `Define` loop fails exactly at the first state whose index is already
present (either in the starting table or put there by an earlier state of the
list), and the error carries that state's index. -/
theorem buildStateMap_err (l : List (State Ctx)) :
    ∀ tbl : Int → Option (State Ctx),
      (¬ (l.map State.index).Nodup ∨ ∃ s ∈ l, (tbl s.index).isSome) →
      ∃ l₁ s l₂, l = l₁ ++ s :: l₂ ∧
        (∀ t ∈ l₁, tbl t.index = none) ∧ ((l₁.map State.index).Nodup) ∧
        ((tbl s.index).isSome ∨ s.index ∈ l₁.map State.index) ∧
        buildStateMap tbl l = .error (.clashingState s.index) := by
  induction l with
  | nil =>
    intro tbl h
    rcases h with h | ⟨s, hs, _⟩
    · simp at h
    · cases hs
  | cons t rest ih =>
    intro tbl h
    cases htt : tbl t.index with
    | some u =>
      refine ⟨[], t, rest, rfl, ?_, by simp, ?_, ?_⟩
      · intro x hx; cases hx
      · left; simp [htt]
      · simp only [buildStateMap, htt]
    | none =>
      have hrest : ¬ (rest.map State.index).Nodup ∨
          ∃ s ∈ rest, ((insertState tbl t s.index).isSome) := by
        rcases h with h | ⟨s, hs, hsome⟩
        · simp only [List.map_cons, List.nodup_cons] at h
          by_cases hnd : (rest.map State.index).Nodup
          · have hmem : t.index ∈ rest.map State.index := by
              by_contra hmem
              exact h ⟨hmem, hnd⟩
            obtain ⟨s, hs, hsi⟩ := List.mem_map.mp hmem
            exact Or.inr ⟨s, hs, by simp [insertState, hsi]⟩
          · exact Or.inl hnd
        · rcases List.mem_cons.mp hs with he | he
          · subst he
            rw [htt] at hsome
            simp at hsome
          · refine Or.inr ⟨s, he, ?_⟩
            by_cases hsi : s.index = t.index
            · simp [insertState, hsi]
            · simpa [insertState, hsi] using hsome
      obtain ⟨l₁, s, l₂, hdec, hfresh, hnd₁, hdup, herr⟩ := ih _ hrest
      refine ⟨t :: l₁, s, l₂, by rw [List.cons_append, hdec], ?_, ?_, ?_, ?_⟩
      · intro x hx
        rcases List.mem_cons.mp hx with he | he
        · subst he; exact htt
        · have hin := hfresh x he
          by_cases hxi : x.index = t.index
          · rw [hxi]; exact htt
          · simpa [insertState, hxi] using hin
      · simp only [List.map_cons, List.nodup_cons]
        refine ⟨?_, hnd₁⟩
        intro hmem
        obtain ⟨x, hx, hxi⟩ := List.mem_map.mp hmem
        have hin := hfresh x hx
        simp [insertState, hxi] at hin
      · rcases hdup with hsome | hmem
        · by_cases hsi : s.index = t.index
          · right; simp [List.map_cons, hsi]
          · left; simpa [insertState, hsi] using hsome
        · right
          simp only [List.map_cons]
          exact List.mem_cons_of_mem _ hmem
      · simp only [buildStateMap, htt]
        exact herr

/-- C5: for every list of states in which two states share the same `Index`
(i.e. the index list is not nodup), `Define` returns a clashing-state error
carrying the offending duplicate index and no machine, regardless of how many
states are supplied or their order; processing is in input order and fails at
the first state whose index is already in the table: the list decomposes as
`l₁ ++ s :: l₂` where the prefix `l₁` is clash-free, `s` repeats an index of
`l₁`, and the error carries `s.index`. -/
theorem define_clashing_states (l : List (State Ctx))
    (h : ¬ (l.map State.index).Nodup) :
    ∃ l₁ s l₂, l = l₁ ++ s :: l₂ ∧ ((l₁.map State.index).Nodup) ∧
      s.index ∈ l₁.map State.index ∧
      Define l = some (.error (.clashingState s.index)) := by
  obtain ⟨l₁, s, l₂, hdec, hfresh, hnd₁, hdup, herr⟩ :=
    buildStateMap_err l (fun _ => none) (Or.inl h)
  refine ⟨l₁, s, l₂, hdec, hnd₁, ?_, ?_⟩
  · rcases hdup with hsome | hmem
    · simp at hsome
    · exact hmem
  · simp only [Define, herr]

/-- Two concrete states sharing index 1, used by the C5 witness. -/
def wClashA : State Nat := ⟨1, fun _ => none⟩

/-- Second state with the same index 1 as `wClashA`. -/
def wClashB : State Nat := ⟨1, fun i => if i = 0 then some ⟨1, NO_ACTION Nat⟩ else none⟩

/-- C5 witness: defining with two states of index 1 yields the clashing-state
error at the second one. -/
theorem define_clashing_states_witness :
    ∃ l₁ s l₂, [wClashA, wClashB] = l₁ ++ s :: l₂ ∧
      ((l₁.map State.index).Nodup) ∧ s.index ∈ l₁.map State.index ∧
      Define [wClashA, wClashB] = some (.error (.clashingState s.index)) :=
  define_clashing_states [wClashA, wClashB] (by simp [wClashA, wClashB])

/-- C6: for every non-empty list of states with pairwise-distinct `Index`
values, `Define` succeeds and returns a machine whose state table maps each
supplied index to its state and whose cursor equals the index of the first
state in the input list. -/
theorem define_success (s0 : State Ctx) (rest : List (State Ctx))
    (hnd : (((s0 :: rest).map State.index)).Nodup) :
    ∃ m : Machine Ctx, Define (s0 :: rest) = some (.ok m) ∧
      m.current = s0.index ∧ ∀ s ∈ s0 :: rest, m.states s.index = some s := by
  have hok := buildStateMap_ok (s0 :: rest) (fun _ => none) (fun _ _ => rfl) hnd
  refine ⟨⟨List.foldl insertState (fun _ => none) (s0 :: rest), s0.index⟩, ?_, rfl, ?_⟩
  · simp only [Define, hok]
    rfl
  · intro s hs
    exact foldl_insert_lookup (s0 :: rest) _ hnd s hs

/-- A second concrete state with index 2, used by the C6 witness. -/
def wState2 : State Nat := ⟨2, fun _ => none⟩

/-- C6 witness: a concrete two-state definition with distinct indices 1, 2. -/
theorem define_success_witness :
    ∃ m : Machine Nat, Define [wEmptyState, wState2] = some (.ok m) ∧
      m.current = wEmptyState.index ∧
      ∀ s ∈ [wEmptyState, wState2], m.states s.index = some s :=
  define_success wEmptyState [wState2] (by simp [wEmptyState, wState2])

/-- State 1 whose only outcome moves to state 99, a target absent from the
table; its action returns the sentinel.  Used by C8. -/
def wDanglingState : State Nat :=
  ⟨1, fun i => if i = 0 then some ⟨99, NO_ACTION Nat⟩ else none⟩

/-- C8: `Define` does not validate outcome target states: the one-state
machine over `wDanglingState` defines successfully, a single `Spin` call with
input 0 returns no error yet leaves the cursor at 99, which is not a key of
the table (the transition into the undefined target succeeds because its
action returns the sentinel), and only a later `Spin` fails with
impossible-state 99. -/
theorem define_unchecked_target :
    ∃ m m' : Machine Nat,
      Define [wDanglingState] = some (.ok m) ∧
      Spin 1 m 0 0 = some (m', 0, none) ∧
      m'.current = 99 ∧ m'.states 99 = none ∧ m'.states = m.states ∧
      Spin 1 m' 0 0 = some (m', 0, some (.impossibleState 99)) := by
  exact ⟨⟨insertState (fun _ => none) wDanglingState, 1⟩,
         ⟨insertState (fun _ => none) wDanglingState, 99⟩,
         rfl, rfl, rfl, rfl, rfl, rfl⟩

/-- C9: the precondition that `Define` receives at least one state is not
checked: on the empty list the loop succeeds vacuously and the
`states[0].Index` access is out of bounds — a Go panic, modelled as `none` —
rather than any returned error; under the non-empty precondition the access
is safe (`Define` always returns a Go value, `some` in the model). -/
theorem define_empty_panics :
    (Define ([] : List (State Ctx)) = none) ∧
    ∀ l : List (State Ctx), l ≠ [] → Define l ≠ none := by
  constructor
  · rfl
  · intro l hl
    cases hbe : buildStateMap (fun _ => none) l with
    | error e => simp [Define, hbe]
    | ok tbl =>
      cases l with
      | nil => exact absurd rfl hl
      | cons t rest => simp [Define, hbe]

/-- C9 witness: the empty case computes to `none`, and a concrete singleton
list is safe. -/
theorem define_empty_panics_witness :
    Define ([] : List (State Nat)) = none ∧ Define [wEmptyState] ≠ none :=
  ⟨(define_empty_panics).1, (define_empty_panics).2 [wEmptyState] (by simp)⟩

/-- State 1 of the C7 chained-action example: input 0 ("input A") moves to
state 2 running an action that applies `f1` to the context and emits input 1
("input B"). -/
def wChain1 (Ctx : Type) (f1 : Ctx → Ctx) : State Ctx :=
  ⟨1, fun i => if i = 0 then some ⟨2, fun x => (f1 x, 1)⟩ else none⟩

/-- State 2 of the C7 chained-action example: input 1 ("input B") moves back
to state 1 running an action that applies `f2` to the context and emits the
sentinel. -/
def wChain2 (Ctx : Type) (f2 : Ctx → Ctx) : State Ctx :=
  ⟨2, fun i => if i = 1 then some ⟨1, fun x => (f2 x, NO_INPUT)⟩ else none⟩

/-- C7: for the two-state machine where state 1 maps input A (0) to (state 2,
action returning input B (1)) and state 2 maps input B to (state 1, action
returning the sentinel), one `Spin` call at state 1 with input A returns with
no error, ends with the cursor at state 1, and both actions have been
executed: the returned context is the composition `f2 (f1 c)` of the two
actions applied to the input context. -/
theorem spin_chain_example {Ctx : Type} (f1 f2 : Ctx → Ctx) (c : Ctx) (n : Nat) :
    ∃ m m' : Machine Ctx,
      Define [wChain1 Ctx f1, wChain2 Ctx f2] = some (.ok m) ∧
      m.current = 1 ∧
      Spin (n + 2) m c 0 = some (m', f2 (f1 c), none) ∧ m'.current = 1 := by
  refine ⟨⟨List.foldl insertState (fun _ => none) [wChain1 Ctx f1, wChain2 Ctx f2], 1⟩,
          ⟨List.foldl insertState (fun _ => none) [wChain1 Ctx f1, wChain2 Ctx f2], 1⟩,
          rfl, rfl, ?_, rfl⟩
  calc
    Spin (n + 2)
        (⟨List.foldl insertState (fun _ => none) [wChain1 Ctx f1, wChain2 Ctx f2], 1⟩ :
          Machine Ctx) c 0
      = Spin (n + 1)
          ⟨List.foldl insertState (fun _ => none) [wChain1 Ctx f1, wChain2 Ctx f2], 2⟩
          (f1 c) 1 :=
        spin_step_action (n + 1) _ c 0 (wChain1 Ctx f1) ⟨2, fun x => (f1 x, 1)⟩
          (by decide) rfl rfl
    _ = Spin n
          ⟨List.foldl insertState (fun _ => none) [wChain1 Ctx f1, wChain2 Ctx f2], 1⟩
          (f2 (f1 c)) NO_INPUT :=
        spin_step_action n _ (f1 c) 1 (wChain2 Ctx f2) ⟨1, fun x => (f2 x, NO_INPUT)⟩
          (by decide) rfl rfl
    _ = some (⟨List.foldl insertState (fun _ => none) [wChain1 Ctx f1, wChain2 Ctx f2], 1⟩,
          f2 (f1 c), none) :=
        spin_sentinel n _ _

end Fsm
